import Mathlib

/-!
Verification of the lineage-graph engine of the
`local-llm-chat-vscode-openmetadata` VS Code extension.

The definitions below are a shallow embedding of the TypeScript source:

  * `src/services/LineageService.ts` — entity/edge records, REST parameter
    construction (`getLineageData`), and the directional fetch helpers
    (`getDirectionalLineage`, `getSimpleLineage`).
  * `src/webview/components/Lineage/LineageModal.tsx` — the merge of an
    expand result into the working graph (`handleExpandedLineageData`).
  * the extension-host provider (`handleExpandLineage`) that converts a
    failed directional fetch into the empty expand result.
  * the lineage viewer (`transformToReactFlowData`, `getHiddenNodes`,
    `handleExpand`, `handleCollapse`) that derives the rendered graph.
  * `src/webview/components/Lineage/LineageUtils.ts` — the fallback layout
    (`layoutNodesFallback`) and its wrapper `layoutNodes`.
  * `src/webview/components/Lineage/ExpandCollapseButtons.tsx` — which
    control (expand / collapse / placeholder / nothing) is rendered per
    direction.

JavaScript strings that may be absent (`undefined`) or empty — both falsy
for the `||` fallback idiom — are modelled as `Option String` with `none`
for the falsy cases.  JS `Set` objects are modelled as insertion-ordered
duplicate-free `List String` (add = append-if-absent, delete = remove).
-/

/-- `EntityReference` from `LineageService.ts`: identity record of a catalog
object.  `fullyQualifiedName` is declared required in the interface but the
viewer code guards it with `|| id`, so it is modelled as `Option String`. -/
structure EntityReference where
  id : String
  type : String
  name : String
  fullyQualifiedName : Option String
  description : Option String := none
  displayName : Option String := none
  deleted : Option Bool := none
deriving DecidableEq, Repr

/-- The `fromEntity` / `toEntity` sub-record of `EdgeDetails`
(`fullyQualifiedName` is optional in the interface). -/
structure EdgeEntityRef where
  id : String
  type : String
  fullyQualifiedName : Option String
deriving DecidableEq, Repr

/-- `EdgeDetails` from `LineageService.ts`: a directed lineage relation
`fromEntity → toEntity` (provenance fields that no modelled function reads
are omitted). -/
structure EdgeDetails where
  fromEntity : EdgeEntityRef
  toEntity : EdgeEntityRef
deriving DecidableEq, Repr

/-- The key used by the merge in `LineageModal.tsx` to deduplicate edges:
the template string `` `${e.fromEntity.id}-${e.toEntity.id}` ``. -/
def edgeKey (e : EdgeDetails) : String :=
  e.fromEntity.id ++ "-" ++ e.toEntity.id

/-- The (fromId, toId) pair of an edge, the deduplication key named by the
spec's WorkingGraph invariant. -/
def edgePair (e : EdgeDetails) : String × String :=
  (e.fromEntity.id, e.toEntity.id)

theorem edgeKey_congr (e e' : EdgeDetails) (h : edgePair e = edgePair e') :
    edgeKey e = edgeKey e' := by
  unfold edgePair at h
  unfold edgeKey
  rw [(Prod.mk.injEq _ _ _ _).mp h |>.1, (Prod.mk.injEq _ _ _ _).mp h |>.2]

/-- The `lineageData` React state of `LineageModal.tsx`: the working graph
of one exploration session (`nodes`, `edges`, `centerNode`). -/
structure LineageState where
  nodes : List EntityReference
  edges : List EdgeDetails
  centerNode : Option EntityReference
deriving DecidableEq, Repr

/-- The result delivered to the webview for one expand request
(`{ nodes, edges, centerNode }`). -/
structure ExpandResult where
  nodes : List EntityReference
  edges : List EdgeDetails
  centerNode : Option EntityReference
deriving DecidableEq, Repr

/-- `handleExpandedLineageData` from `LineageModal.tsx`: merge an expand
result into the working graph, skipping nodes whose `id` is already present
and edges whose `fromId-toId` key is already present.  A `none` state or an
empty `expandedData.nodes` leaves the state untouched (early return). -/
def handleExpandedLineageData (lineageData : Option LineageState)
    (expandedData : ExpandResult) : Option LineageState :=
  match lineageData with
  | none => none
  | some g =>
    if expandedData.nodes.isEmpty then some g
    else
      let existingNodeIds := g.nodes.map (fun n => n.id)
      let newNodes := expandedData.nodes.filter
        (fun n => decide (n.id ∉ existingNodeIds))
      let existingEdgeKeys := g.edges.map edgeKey
      let newEdges := expandedData.edges.filter
        (fun e => decide (edgeKey e ∉ existingEdgeKeys))
      some { g with
        nodes := g.nodes ++ newNodes,
        edges := g.edges ++ newEdges }

/-- Node count of the (optional) working graph. -/
def nodeCount : Option LineageState → Nat
  | none => 0
  | some g => g.nodes.length

/-- Edge count of the (optional) working graph. -/
def edgeCount : Option LineageState → Nat
  | none => 0
  | some g => g.edges.length

lemma handleExpandedLineageData_idem (ld : Option LineageState)
    (r : ExpandResult) :
    handleExpandedLineageData (handleExpandedLineageData ld r) r =
      handleExpandedLineageData ld r := by
  match ld with
  | none => rfl
  | some g =>
    by_cases hn : r.nodes.isEmpty
    · simp [handleExpandedLineageData, hn]
    · have hnodes : r.nodes.filter
          (fun n => decide (n.id ∉
            ((g.nodes ++ r.nodes.filter
              (fun n => decide (n.id ∉ g.nodes.map (fun m => m.id)))).map
                (fun m => m.id)))) = [] := by
        apply List.filter_eq_nil_iff.mpr
        intro n hnmem
        simp only [List.map_append, List.mem_append, decide_eq_true_eq,
          not_or, not_not, Decidable.not_not]
        by_cases hin : n.id ∈ g.nodes.map (fun m => m.id)
        · intro hno
          exact hno.1 hin
        · intro hno
          exact hno.2 (List.mem_map.mpr ⟨n,
            List.mem_filter.mpr ⟨hnmem, by simpa using hin⟩, rfl⟩)
      have hedges : r.edges.filter
          (fun e => decide (edgeKey e ∉
            ((g.edges ++ r.edges.filter
              (fun e => decide (edgeKey e ∉ g.edges.map edgeKey))).map
                edgeKey))) = [] := by
        apply List.filter_eq_nil_iff.mpr
        intro e hemem
        simp only [List.map_append, List.mem_append, decide_eq_true_eq,
          not_or, not_not, Decidable.not_not]
        by_cases hin : edgeKey e ∈ g.edges.map edgeKey
        · intro hno
          exact hno.1 hin
        · intro hno
          exact hno.2 (List.mem_map.mpr ⟨e,
            List.mem_filter.mpr ⟨hemem, by simpa using hin⟩, rfl⟩)
      have h1 : handleExpandedLineageData (some g) r =
          some { nodes := g.nodes ++ r.nodes.filter
                   (fun n => decide (n.id ∉ g.nodes.map (fun m => m.id))),
                 edges := g.edges ++ r.edges.filter
                   (fun e => decide (edgeKey e ∉ g.edges.map edgeKey)),
                 centerNode := g.centerNode } := by
        simp only [handleExpandedLineageData]
        rw [if_neg hn]
      rw [h1]
      simp only [handleExpandedLineageData]
      rw [if_neg hn]
      simp only [Option.some.injEq, LineageState.mk.injEq]
      rw [hnodes, hedges]
      simp

/-- **C3** — Merging a fetch result into the working graph is idempotent:
for every working-graph state and every expanded-data result, applying
`handleExpandedLineageData` twice with the same result leaves the node
count and edge count equal to what they are after the first merge. -/
theorem merge_idempotent_counts (ld : Option LineageState) (r : ExpandResult) :
    nodeCount (handleExpandedLineageData (handleExpandedLineageData ld r) r) =
      nodeCount (handleExpandedLineageData ld r) ∧
    edgeCount (handleExpandedLineageData (handleExpandedLineageData ld r) r) =
      edgeCount (handleExpandedLineageData ld r) := by
  rw [handleExpandedLineageData_idem]
  exact ⟨rfl, rfl⟩

/-- The WorkingGraph deduplication invariant from the spec: no two entities
share an `id`, and no two edges share the same `(fromId, toId)` pair. -/
def stateInvariant (g : LineageState) : Prop :=
  (g.nodes.map (fun n => n.id)).Nodup ∧ (g.edges.map edgePair).Nodup

instance (g : LineageState) : Decidable (stateInvariant g) := by
  unfold stateInvariant
  exact inferInstance

/-- Lifted invariant: the modal state before the first successful fetch is
`none`, which vacuously satisfies the invariant. -/
def optionInvariant : Option LineageState → Prop
  | none => True
  | some g => stateInvariant g

instance (ld : Option LineageState) : Decidable (optionInvariant ld) := by
  unfold optionInvariant
  cases ld <;> exact inferInstance

/-- An expand result that is internally deduplicated: its own node ids are
pairwise distinct and its own edge `(fromId, toId)` pairs are pairwise
distinct. -/
def resultDeduped (r : ExpandResult) : Prop :=
  (r.nodes.map (fun n => n.id)).Nodup ∧ (r.edges.map edgePair).Nodup

instance (r : ExpandResult) : Decidable (resultDeduped r) := by
  unfold resultDeduped
  exact inferInstance

lemma merge_step_invariant (ld : Option LineageState) (r : ExpandResult)
    (hld : optionInvariant ld) (hr : resultDeduped r) :
    optionInvariant (handleExpandedLineageData ld r) := by
  match ld with
  | none => exact trivial
  | some g =>
    by_cases hn : r.nodes.isEmpty
    · simpa [handleExpandedLineageData, hn] using hld
    · have h1 : handleExpandedLineageData (some g) r =
          some { nodes := g.nodes ++ r.nodes.filter
                   (fun n => decide (n.id ∉ g.nodes.map (fun m => m.id))),
                 edges := g.edges ++ r.edges.filter
                   (fun e => decide (edgeKey e ∉ g.edges.map edgeKey)),
                 centerNode := g.centerNode } := by
        simp only [handleExpandedLineageData]
        rw [if_neg hn]
      rw [h1]
      obtain ⟨hgn, hge⟩ := hld
      refine ⟨?_, ?_⟩
      · rw [List.map_append, List.nodup_append]
        refine ⟨hgn, ?_, ?_⟩
        · exact List.Nodup.sublist
            (List.Sublist.map (fun n => n.id) (List.filter_sublist r.nodes))
            hr.1
        · intro x hx hx2
          obtain ⟨n, hnmem, rfl⟩ := List.mem_map.mp hx2
          have := (List.mem_filter.mp hnmem).2
          simp only [decide_eq_true_eq] at this
          exact this hx
      · rw [List.map_append, List.nodup_append]
        refine ⟨hge, ?_, ?_⟩
        · exact List.Nodup.sublist
            (List.Sublist.map edgePair (List.filter_sublist r.edges)) hr.2
        · intro p hp hp2
          obtain ⟨e', he'mem, he'⟩ := List.mem_map.mp hp
          obtain ⟨e, hemem, he⟩ := List.mem_map.mp hp2
          have hfil := (List.mem_filter.mp hemem).2
          simp only [decide_eq_true_eq] at hfil
          exact hfil (List.mem_map.mpr ⟨e',  he'mem,
            edgeKey_congr e' e (he'.trans he.symm)⟩)

/-- **C4** — The working-graph deduplication invariant is preserved by any
sequence of merges, provided each merged expand result is itself free of
internal duplicates (duplicate node ids / duplicate `(fromId, toId)`
pairs within a single fetch result). -/
theorem merge_sequence_preserves_invariant (st : Option LineageState)
    (rs : List ExpandResult) (hst : optionInvariant st)
    (hrs : ∀ r ∈ rs, resultDeduped r) :
    optionInvariant (rs.foldl handleExpandedLineageData st) := by
  induction rs generalizing st with
  | nil => exact hst
  | cons r rs ih =>
    exact ih (handleExpandedLineageData st r)
      (merge_step_invariant st r hst (hrs r (List.mem_cons_self r rs)))
      (fun r' hr' => hrs r' (List.mem_cons_of_mem r hr'))

/-- Shared concrete catalog entities used in witnesses / counterexamples. -/
def entA : EntityReference :=
  { id := "a", type := "table", name := "A", fullyQualifiedName := some "A" }

def entB : EntityReference :=
  { id := "b", type := "table", name := "B", fullyQualifiedName := some "B" }

def entC : EntityReference :=
  { id := "c", type := "table", name := "C", fullyQualifiedName := some "C" }

def entD : EntityReference :=
  { id := "d", type := "table", name := "D", fullyQualifiedName := some "D" }

/-- Build a concrete edge between two table entities. -/
def mkEdge (fromId toId : String) (fromFqn toFqn : Option String) :
    EdgeDetails :=
  { fromEntity :=
      { id := fromId, type := "table", fullyQualifiedName := fromFqn },
    toEntity :=
      { id := toId, type := "table", fullyQualifiedName := toFqn } }

/-- A working graph holding just entity `a`, satisfying the invariant. -/
def cexGraph : LineageState := { nodes := [entA], edges := [], centerNode := none }

/-- The `a → b` edge. -/
def edgeAB : EdgeDetails := mkEdge "a" "b" (some "A") (some "B")

/-- A fetch result carrying the same `a → b` edge twice, as two distinct
entries of the response's edge maps can describe the same (from, to) pair. -/
def dupResult : ExpandResult :=
  { nodes := [entB], edges := [edgeAB, edgeAB], centerNode := none }

/-- **C4 counterexample** — the merge deduplicates the incoming batch only
against the existing edges, not against itself: merging a fetch result that
contains the same `(fromId, toId)` edge twice into a graph satisfying the
invariant yields a graph with two identical `a → b` edges, violating the
invariant.  So the claim fails for an arbitrary expand result. -/
theorem merge_invariant_cex :
    stateInvariant cexGraph ∧ resultDeduped dupResult = False ∧
    handleExpandedLineageData (some cexGraph) dupResult =
      some { nodes := [entA, entB], edges := [edgeAB, edgeAB],
             centerNode := none } ∧
    ¬ optionInvariant (handleExpandedLineageData (some cexGraph) dupResult) := by
  refine ⟨by decide, ?_, by decide, by decide⟩
  simp only [eq_iff_iff, iff_false]
  decide

/-- **C4 witness** — a concrete single-merge run of the amended theorem. -/
theorem merge_sequence_preserves_invariant_witness :
    optionInvariant
      ([({ nodes := [entB], edges := [edgeAB], centerNode := none } :
          ExpandResult)].foldl handleExpandedLineageData (some cexGraph)) :=
  merge_sequence_preserves_invariant (some cexGraph) _ (by decide)
    (by intro r hr
        simp only [List.mem_singleton] at hr
        subst hr
        decide)

/-- The optional `paging` block of a lineage response node. -/
structure NodePaging where
  entityDownstreamCount : Option Nat := none
  entityUpstreamCount : Option Nat := none
deriving DecidableEq, Repr

/-- `NodeData` from `LineageService.ts`: one value of the response's
`nodes` record. -/
structure NodeData where
  entity : EntityReference
  paging : Option NodePaging := none
deriving DecidableEq, Repr

/-- `LineageData` from `LineageService.ts`: the raw catalog response.  The
JSON records (`Record<string, …>`) are modelled as association lists, with
`Object.values` as `List.map Prod.snd`. -/
structure LineageData where
  nodes : List (String × NodeData)
  downstreamEdges : List (String × EdgeDetails)
  upstreamEdges : List (String × EdgeDetails)
deriving DecidableEq, Repr

/-- `getDirectionalLineage` from `LineageService.ts`.  The network fetch is
abstracted as its outcome `fetchResult` (HTTP / network errors arrive as
`Except.error`).  On success the entities are extracted from the response's
`nodes` record, the center node is looked up by fully-qualified name
(absence is an error), and only the edge maps of directions requested with
positive depth are included. -/
def getDirectionalLineage (fqn : String)
    (upstreamDepth downstreamDepth : Nat)
    (fetchResult : Except String LineageData) : Except String ExpandResult :=
  match fetchResult with
  | .error e => .error e
  | .ok ld =>
    let nodes := (ld.nodes.map Prod.snd).map (fun nd => nd.entity)
    match nodes.find?
        (fun n => decide (n.fullyQualifiedName = some fqn)) with
    | none => .error ("Center node not found for FQN: " ++ fqn)
    | some centerNode =>
      let allEdges :=
        (if 0 < upstreamDepth then ld.upstreamEdges.map Prod.snd else []) ++
        (if 0 < downstreamDepth then ld.downstreamEdges.map Prod.snd else [])
      .ok { nodes := nodes, edges := allEdges, centerNode := some centerNode }

/-- `getSimpleLineage` from `LineageService.ts` (response processing; the
`depth` argument only parameterises the abstracted fetch).  Same center
lookup as `getDirectionalLineage`, but both edge maps are always
included. -/
def getSimpleLineage (fqn : String)
    (fetchResult : Except String LineageData) : Except String ExpandResult :=
  match fetchResult with
  | .error e => .error e
  | .ok ld =>
    let nodes := (ld.nodes.map Prod.snd).map (fun nd => nd.entity)
    match nodes.find?
        (fun n => decide (n.fullyQualifiedName = some fqn)) with
    | none => .error ("Center node not found for FQN: " ++ fqn)
    | some centerNode =>
      .ok { nodes := nodes,
            edges := ld.upstreamEdges.map Prod.snd ++
              ld.downstreamEdges.map Prod.snd,
            centerNode := some centerNode }

/-- The `{ nodes: [], edges: [], centerNode: null }` payload the provider
sends when an expand fetch fails. -/
def emptyExpandResult : ExpandResult :=
  { nodes := [], edges := [], centerNode := none }

/-- `handleExpandLineage` from the extension-host provider: fetch one
direction at depth 2, and on any error deliver the empty expand result. -/
def handleExpandLineage (nodeId : String) (direction : String)
    (fetchResult : Except String LineageData) : ExpandResult :=
  let res :=
    if direction = "upstream" then
      getDirectionalLineage nodeId 2 0 fetchResult
    else if direction = "downstream" then
      getDirectionalLineage nodeId 0 2 fetchResult
    else
      getSimpleLineage nodeId fetchResult
  match res with
  | .ok d => d
  | .error _ => emptyExpandResult

/-- **C5** — If a directional expand fetch fails (network/HTTP error, or
the center node is absent from the response), the coordinator delivers the
empty result and the subsequent merge leaves the working graph exactly
unchanged. -/
theorem failed_expand_preserves_graph (nodeId direction : String)
    (fetch : Except String LineageData) (ld : Option LineageState)
    (hfail : (∃ msg, fetch = Except.error msg) ∨
      ∃ ldd, fetch = Except.ok ldd ∧
        ((ldd.nodes.map Prod.snd).map (fun nd => nd.entity)).find?
          (fun n => decide (n.fullyQualifiedName = some nodeId)) = none) :
    handleExpandLineage nodeId direction fetch = emptyExpandResult ∧
    handleExpandedLineageData ld (handleExpandLineage nodeId direction fetch)
      = ld := by
  have h1 : handleExpandLineage nodeId direction fetch = emptyExpandResult := by
    rcases hfail with ⟨msg, rfl⟩ | ⟨ldd, rfl, hcenter⟩
    · unfold handleExpandLineage
      split_ifs <;> rfl
    · unfold handleExpandLineage
      simp only [List.map_map, List.find?_map] at hcenter
      split_ifs <;>
        simp [getDirectionalLineage, getSimpleLineage, hcenter]
  refine ⟨h1, ?_⟩
  rw [h1]
  cases ld <;> rfl

/-- **C5 witness** — a concrete failed fetch (`HTTP 500`) on a concrete
working graph. -/
theorem failed_expand_preserves_graph_witness :
    handleExpandLineage "X" "upstream" (Except.error "HTTP 500") =
      emptyExpandResult ∧
    handleExpandedLineageData (some cexGraph)
      (handleExpandLineage "X" "upstream" (Except.error "HTTP 500")) =
      some cexGraph :=
  failed_expand_preserves_graph "X" "upstream" _ _
    (Or.inl ⟨"HTTP 500", rfl⟩)

/-- `LineageConfig` from `LineageService.ts` (all fields optional). -/
structure LineageConfig where
  upstreamDepth : Option Nat := none
  downstreamDepth : Option Nat := none
  nodesPerLayer : Option Nat := none
deriving DecidableEq, Repr

/-- The `URLSearchParams` of the REST call built by `getLineageData`. -/
structure LineageParams where
  fqn : String
  type : String
  upstreamDepth : Nat
  downstreamDepth : Nat
  includeDeleted : Bool
  size : Nat
deriving DecidableEq, Repr

/-- The query-string construction of `getLineageData`
(`LineageService.ts`): destructuring defaults
`upstreamDepth = 1, downstreamDepth = 1, nodesPerLayer = 50` on
`config || {}`, then `upstreamDepth: upstreamDepth === 0 ? '0' :
(upstreamDepth - 1).toString()` — the catalog API expects `n-1` for `n`
levels — while `downstreamDepth` is sent unchanged. -/
def getLineageDataParams (fqn : String) (entityType : String)
    (config : Option LineageConfig) : LineageParams :=
  let upstreamDepth := ((config.bind (fun c => c.upstreamDepth)).getD 1)
  let downstreamDepth := ((config.bind (fun c => c.downstreamDepth)).getD 1)
  let nodesPerLayer := ((config.bind (fun c => c.nodesPerLayer)).getD 50)
  { fqn := fqn,
    type := entityType,
    upstreamDepth := if upstreamDepth = 0 then 0 else upstreamDepth - 1,
    downstreamDepth := downstreamDepth,
    includeDeleted := false,
    size := nodesPerLayer }

/-- The parameters `getSimpleLineage fqn entityType depth` passes down:
`{ upstreamDepth: depth, downstreamDepth: depth }`. -/
def getSimpleLineageParams (fqn : String) (entityType : String)
    (depth : Nat) : LineageParams :=
  getLineageDataParams fqn entityType
    (some { upstreamDepth := some depth, downstreamDepth := some depth })

/-- **C9** — For every call to `getLineageData` with requested upstream
depth `u` and downstream depth `d`, the query string carries
`upstreamDepth = u - 1` when `u > 0` and `0` when `u = 0`, while
`downstreamDepth` is sent as `d` unchanged; hence the initial session fetch
(`getSimpleLineage` at depth 2, both ways) requests `upstreamDepth = 1` and
`downstreamDepth = 2` on the wire. -/
theorem getLineageData_wire_depths (fqn entityType : String)
    (cfg : LineageConfig) (u d : Nat)
    (hu : cfg.upstreamDepth = some u) (hd : cfg.downstreamDepth = some d) :
    (0 < u →
      (getLineageDataParams fqn entityType (some cfg)).upstreamDepth = u - 1) ∧
    (u = 0 →
      (getLineageDataParams fqn entityType (some cfg)).upstreamDepth = 0) ∧
    (getLineageDataParams fqn entityType (some cfg)).downstreamDepth = d ∧
    (getSimpleLineageParams fqn entityType 2).upstreamDepth = 1 ∧
    (getSimpleLineageParams fqn entityType 2).downstreamDepth = 2 := by
  refine ⟨?_, ?_, ?_, rfl, rfl⟩
  · intro hpos
    simp [getLineageDataParams, hu, Nat.pos_iff_ne_zero.mp hpos]
  · intro hzero
    simp [getLineageDataParams, hu, hzero]
  · simp [getLineageDataParams, hd]

/-- **C9 witness** — the initial fetch configuration `u = 2, d = 2`. -/
theorem getLineageData_wire_depths_witness :
    (0 < 2 →
      (getLineageDataParams "svc.db.sch.T" "table"
        (some { upstreamDepth := some 2, downstreamDepth := some 2 })
        ).upstreamDepth = 2 - 1) ∧
    (2 = 0 →
      (getLineageDataParams "svc.db.sch.T" "table"
        (some { upstreamDepth := some 2, downstreamDepth := some 2 })
        ).upstreamDepth = 0) ∧
    (getLineageDataParams "svc.db.sch.T" "table"
      (some { upstreamDepth := some 2, downstreamDepth := some 2 })
      ).downstreamDepth = 2 ∧
    (getSimpleLineageParams "svc.db.sch.T" "table" 2).upstreamDepth = 1 ∧
    (getSimpleLineageParams "svc.db.sch.T" "table" 2).downstreamDepth = 2 :=
  getLineageData_wire_depths "svc.db.sch.T" "table"
    { upstreamDepth := some 2, downstreamDepth := some 2 } 2 2 rfl rfl

/-- The fallback key of the viewer: `node.fullyQualifiedName || node.id`. -/
def entityKey (n : EntityReference) : String :=
  n.fullyQualifiedName.getD n.id

/-- The fallback key of an edge endpoint:
`edge.xEntity.fullyQualifiedName || edge.xEntity.id`. -/
def edgeEntityKey (r : EdgeEntityRef) : String :=
  r.fullyQualifiedName.getD r.id

/-- JS `new Set(prev).add(x)`: append if absent. -/
def setAdd (l : List String) (x : String) : List String :=
  if x ∈ l then l else l ++ [x]

/-- JS `new Set(prev).delete(x)`: remove the element (on duplicate-free
lists, `filter (· ≠ x)` is exactly removal of the one occurrence). -/
def setDelete (l : List String) (x : String) : List String :=
  l.filter (fun y => decide (y ≠ x))

/-- `addUpstreamRecursively` inside `getHiddenNodes` (LineageViewer): for
every edge targeting `currentId`, add the edge's source to the hidden set
if absent and recurse on it.  The JS recursion is guarded by the growing
visited set; here the guard is paired with explicit fuel.  A nested call
happens only right after a new key (an edge source) enters the set, so the
recursion depth never exceeds the number of edges, and
`edges.length + 1` fuel never runs out. -/
def addUpstreamRecursively (edges : List EdgeDetails) :
    Nat → String → List String → List String
  | 0, _, hiddenNodeIds => hiddenNodeIds
  | fuel + 1, currentId, hiddenNodeIds =>
    edges.foldl (fun acc e =>
      if edgeEntityKey e.toEntity = currentId then
        let sId := edgeEntityKey e.fromEntity
        if sId ∈ acc then acc
        else addUpstreamRecursively edges fuel sId (acc ++ [sId])
      else acc) hiddenNodeIds

/-- `addDownstreamRecursively` inside `getHiddenNodes`: symmetric closure
over the downstream direction. -/
def addDownstreamRecursively (edges : List EdgeDetails) :
    Nat → String → List String → List String
  | 0, _, hiddenNodeIds => hiddenNodeIds
  | fuel + 1, currentId, hiddenNodeIds =>
    edges.foldl (fun acc e =>
      if edgeEntityKey e.fromEntity = currentId then
        let tId := edgeEntityKey e.toEntity
        if tId ∈ acc then acc
        else addDownstreamRecursively edges fuel tId (acc ++ [tId])
      else acc) hiddenNodeIds

/-- `getHiddenNodes` from the lineage viewer: for every node in the
upstream-hidden set, hide the sources of all edges targeting it and close
upstream recursively; symmetrically for the downstream-hidden set.  The JS
`hiddenNodeIds.add(sourceId)` on a `Set` is append-if-absent. -/
def getHiddenNodes (edges : List EdgeDetails)
    (upstreamHidden downstreamHidden : List String) : List String :=
  let fuel := edges.length + 1
  let afterUp := upstreamHidden.foldl (fun acc nodeId =>
    edges.foldl (fun acc e =>
      if edgeEntityKey e.toEntity = nodeId then
        let sourceId := edgeEntityKey e.fromEntity
        let acc2 := if sourceId ∈ acc then acc else acc ++ [sourceId]
        addUpstreamRecursively edges fuel sourceId acc2
      else acc) acc) []
  downstreamHidden.foldl (fun acc nodeId =>
    edges.foldl (fun acc e =>
      if edgeEntityKey e.fromEntity = nodeId then
        let targetId := edgeEntityKey e.toEntity
        let acc2 := if targetId ∈ acc then acc else acc ++ [targetId]
        addDownstreamRecursively edges fuel targetId acc2
      else acc) acc) afterUp

/-- The `LineageNodeData` carried by every rendered node (the `onExpand` /
`onCollapse` callbacks are behaviour, not data, and are modelled by
`handleExpand` / `handleCollapse` below). -/
structure LineageNodeData where
  entity : EntityReference
  isCenter : Bool
  isUpstream : Bool
  isDownstream : Bool
  hasUpstreamConnections : Bool
  hasDownstreamConnections : Bool
  upstreamHidden : Bool
  downstreamHidden : Bool
  canExpandUpstream : Bool
  canExpandDownstream : Bool
deriving DecidableEq, Repr

/-- A ReactFlow node as built by the transform (rendering-only props such
as `type`, `sourcePosition` and the style constants are omitted). -/
structure FlowNode where
  id : String
  position : Nat × Nat
  data : LineageNodeData
deriving DecidableEq, Repr

/-- A ReactFlow edge as built by the transform (style props omitted). -/
structure FlowEdge where
  id : String
  source : String
  target : String
deriving DecidableEq, Repr

/-- JS `someSet.has(node.fullyQualifiedName)` where the set holds strings:
an absent fully-qualified name (`undefined`) is never a member.  This is
the *raw* lookup used for upstream/downstream classification — note the
missing `|| node.id` fallback. -/
def rawFqnMem (node : EntityReference) (keys : List String) : Bool :=
  match node.fullyQualifiedName with
  | some s => decide (s ∈ keys)
  | none => false

/-- The per-node data computed in `transformToReactFlowData`'s `.map`:
classification from the precomputed target/source key sets, connection
existence, hidden-direction membership and the expand/collapse capability
flags.  The `downstreamMap`/`upstreamMap` sets are recomputed here per
node; they are pure functions of `edges`, so this is extensionally the
single precomputation of the source. -/
def mkLineageNodeData (edges : List EdgeDetails) (centerNodeFqn : String)
    (upstreamHidden downstreamHidden : List String)
    (node : EntityReference) : LineageNodeData :=
  let isCenter := decide (node.fullyQualifiedName = some centerNodeFqn)
  let isDownstream := rawFqnMem node
    (edges.map (fun e => edgeEntityKey e.toEntity))
  let isUpstream := rawFqnMem node
    (edges.map (fun e => edgeEntityKey e.fromEntity))
  let nodeId := entityKey node
  let hasUpstreamConnections :=
    edges.any (fun e => decide (edgeEntityKey e.toEntity = nodeId))
  let hasDownstreamConnections :=
    edges.any (fun e => decide (edgeEntityKey e.fromEntity = nodeId))
  let isUpstreamHidden := decide (nodeId ∈ upstreamHidden)
  let isDownstreamHidden := decide (nodeId ∈ downstreamHidden)
  let canExpandUpstream := isCenter || hasUpstreamConnections ||
    (!hasUpstreamConnections && isUpstream)
  let canExpandDownstream := isCenter || hasDownstreamConnections ||
    (!hasDownstreamConnections && isDownstream)
  { entity := node,
    isCenter := isCenter,
    isUpstream := !isCenter && isUpstream,
    isDownstream := !isCenter && isDownstream,
    hasUpstreamConnections := hasUpstreamConnections,
    hasDownstreamConnections := hasDownstreamConnections,
    upstreamHidden := isUpstreamHidden,
    downstreamHidden := isDownstreamHidden,
    canExpandUpstream := canExpandUpstream,
    canExpandDownstream := canExpandDownstream }

/-- One entry of the transform's edge `.map(...).filter(Boolean)`: find the
endpoint entities (by fqn equality — where `undefined === undefined`
matches — or by id), drop the edge if either endpoint is missing or
hidden. -/
def mkFlowEdge (nodes : List EntityReference) (hiddenNodeIds : List String)
    (index : Nat) (e : EdgeDetails) : Option FlowEdge :=
  match nodes.find? (fun n =>
      decide (n.fullyQualifiedName = e.fromEntity.fullyQualifiedName) ||
      decide (n.id = e.fromEntity.id)) with
  | none => none
  | some sourceNode =>
    match nodes.find? (fun n =>
        decide (n.fullyQualifiedName = e.toEntity.fullyQualifiedName) ||
        decide (n.id = e.toEntity.id)) with
    | none => none
    | some targetNode =>
      if entityKey sourceNode ∈ hiddenNodeIds ∨
          entityKey targetNode ∈ hiddenNodeIds then none
      else some { id := "edge-" ++ toString index,
                  source := sourceNode.id, target := targetNode.id }

/-- The node array built by `transformToReactFlowData`: filter out hidden
nodes by fallback key, then map with the running index (the index only
feeds the temporary position that the layout pass later overwrites). -/
def transformFlowNodes (nodes : List EntityReference)
    (edges : List EdgeDetails) (centerNodeFqn : String)
    (upstreamHidden downstreamHidden : List String) : List FlowNode :=
  let hiddenNodeIds := getHiddenNodes edges upstreamHidden downstreamHidden
  ((nodes.filter (fun n => decide (entityKey n ∉ hiddenNodeIds))).enum).map
    (fun p => { id := p.2.id, position := (p.1 * 250, p.1 * 150),
                data := mkLineageNodeData edges centerNodeFqn
                  upstreamHidden downstreamHidden p.2 })

/-- The edge array built by `transformToReactFlowData`. -/
def transformFlowEdges (nodes : List EntityReference)
    (edges : List EdgeDetails)
    (upstreamHidden downstreamHidden : List String) : List FlowEdge :=
  let hiddenNodeIds := getHiddenNodes edges upstreamHidden downstreamHidden
  (edges.enum).filterMap (fun p => mkFlowEdge nodes hiddenNodeIds p.1 p.2)

/-- The `reactFlowNodes` / `reactFlowEdges` state of the viewer. -/
structure RenderState where
  rfNodes : List FlowNode
  rfEdges : List FlowEdge
deriving DecidableEq, Repr

/-- `transformToReactFlowData`: on an empty node list, or when no node's
fully-qualified name equals the center key, return without touching the
previously rendered state; otherwise rebuild both arrays.  (The source then
hands the node array to the asynchronous layout pass, which only rewrites
positions; the structural content modelled here is unchanged by it.) -/
def transformToReactFlowData (nodes : List EntityReference)
    (edges : List EdgeDetails) (centerNodeFqn : String)
    (upstreamHidden downstreamHidden : List String)
    (prev : RenderState) : RenderState :=
  if nodes.isEmpty then prev
  else
    match nodes.find?
        (fun n => decide (n.fullyQualifiedName = some centerNodeFqn)) with
    | none => prev
    | some _ =>
      { rfNodes := transformFlowNodes nodes edges centerNodeFqn
          upstreamHidden downstreamHidden,
        rfEdges := transformFlowEdges nodes edges
          upstreamHidden downstreamHidden }

/-- The two hidden-direction sets of the viewer
(`upstreamHidden` / `downstreamHidden` React state). -/
structure HiddenState where
  upstreamHidden : List String
  downstreamHidden : List String
deriving DecidableEq, Repr

/-- `handleCollapse`: add the node's fallback key to the hidden set of the
given direction (any other direction string is a no-op). -/
def handleCollapse (st : HiddenState) (entity : EntityReference)
    (direction : String) : HiddenState :=
  let nodeId := entityKey entity
  if direction = "upstream" then
    { st with upstreamHidden := setAdd st.upstreamHidden nodeId }
  else if direction = "downstream" then
    { st with downstreamHidden := setAdd st.downstreamHidden nodeId }
  else st

/-- `handleExpand` (local state part; the parallel data request is the
separately modelled `handleExpandLineage`): remove the node's fallback key
from the hidden set of the given direction. -/
def handleExpand (st : HiddenState) (entity : EntityReference)
    (direction : String) : HiddenState :=
  let nodeId := entityKey entity
  if direction = "upstream" then
    { st with upstreamHidden := setDelete st.upstreamHidden nodeId }
  else if direction = "downstream" then
    { st with downstreamHidden := setDelete st.downstreamHidden nodeId }
  else st

/-- What `ExpandCollapseButtons` renders on one side of a node. -/
inductive LineageControl
  | expandControl
  | collapseControl
  | placeholder
  | noControl
deriving DecidableEq, Repr

/-- The upstream (left) side of `ExpandCollapseButtons`: only rendered at
all under `canExpandUpstream`; with a connection it is an expand button
when hidden, a collapse button only for the center node, and an empty
placeholder circle otherwise; without a connection it is an expand
button. -/
def upstreamControl (d : LineageNodeData) : LineageControl :=
  if d.canExpandUpstream then
    if d.hasUpstreamConnections then
      if d.upstreamHidden then .expandControl
      else if d.isCenter then .collapseControl
      else .placeholder
    else .expandControl
  else .noControl

/-- The downstream (right) side of `ExpandCollapseButtons`: no center-only
restriction on collapsing. -/
def downstreamControl (d : LineageNodeData) : LineageControl :=
  if d.canExpandDownstream then
    if d.hasDownstreamConnections then
      if d.downstreamHidden then .expandControl
      else .collapseControl
    else .expandControl
  else .noControl

/-- The chain `a → b → c → d` (fully-qualified names `A → B → C → D`). -/
def chainEdges : List EdgeDetails :=
  [mkEdge "a" "b" (some "A") (some "B"),
   mkEdge "b" "c" (some "B") (some "C"),
   mkEdge "c" "d" (some "C") (some "D")]

/-- The two-node cycle `a → b → a` (names `A → B → A`). -/
def cycleEdges : List EdgeDetails :=
  [mkEdge "a" "b" (some "A") (some "B"),
   mkEdge "b" "a" (some "B") (some "A")]

/-- **C1 (amended)** — For the chain `A→B→C→D`, hiding upstream at `D`
hides `C` and `B` (as claimed — the closure also reaches `A`); for the
cycle `A→B→A`, hiding upstream at `A` terminates, but the closure walks
the cycle back to the collapse point: the hidden set is exactly
`{B, A}`, not `{B}`. -/
theorem getHiddenNodes_chain_cycle :
    ("C" ∈ getHiddenNodes chainEdges ["D"] [] ∧
     "B" ∈ getHiddenNodes chainEdges ["D"] []) ∧
    getHiddenNodes cycleEdges ["A"] [] = ["B", "A"] := by decide

/-- **C1 counterexample** — contrary to the claim that hiding upstream at
`A` on the cycle yields exactly `{B}`, the computed hidden set contains
`A` itself, which is not in `{B}`. -/
theorem getHiddenNodes_cycle_cex :
    "A" ∈ getHiddenNodes cycleEdges ["A"] [] ∧
    ("A" : String) ∉ (["B"] : List String) := by decide

/-- **C10** — If the input node list is empty, or no node's
fully-qualified name equals the center key, the transform returns without
producing output: the previously rendered state is exactly unchanged. -/
theorem transform_early_return (nodes : List EntityReference)
    (edges : List EdgeDetails) (centerNodeFqn : String)
    (upstreamHidden downstreamHidden : List String) (prev : RenderState)
    (h : nodes = [] ∨
      ∀ n ∈ nodes, n.fullyQualifiedName ≠ some centerNodeFqn) :
    transformToReactFlowData nodes edges centerNodeFqn
      upstreamHidden downstreamHidden prev = prev := by
  rcases h with rfl | hall
  · rfl
  · unfold transformToReactFlowData
    by_cases he : nodes.isEmpty
    · rw [if_pos he]
    · rw [if_neg he]
      have hfind : nodes.find?
          (fun n => decide (n.fullyQualifiedName = some centerNodeFqn)) =
          none := by
        apply List.find?_eq_none.mpr
        intro n hn
        simpa using hall n hn
      rw [hfind]

/-- A nonempty previously-rendered state, to exhibit that the early return
really leaves it untouched. -/
def demoPrev : RenderState :=
  { rfNodes :=
      [{ id := "z", position := (0, 0),
         data := mkLineageNodeData [] "Z" [] [] entA }],
    rfEdges := [] }

/-- **C10 witness** — a concrete run whose center key matches no node. -/
theorem transform_early_return_witness :
    transformToReactFlowData [entA] [edgeAB] "nope" ["x"] [] demoPrev =
      demoPrev :=
  transform_early_return [entA] [edgeAB] "nope" ["x"] [] demoPrev
    (Or.inr (by decide))

lemma setDelete_setAdd (l : List String) (x : String) (h : x ∉ l) :
    setDelete (setAdd l x) x = l := by
  unfold setAdd setDelete
  rw [if_neg h, List.filter_append]
  have h1 : l.filter (fun y => decide (y ≠ x)) = l := by
    apply List.filter_eq_self.mpr
    intro y hy
    simp only [decide_eq_true_eq]
    intro hyx
    exact h (hyx ▸ hy)
  have h2 : ([x].filter (fun y => decide (y ≠ x)) : List String) = [] := by
    simp
  rw [h1, h2, List.append_nil]

/-- **C6 (amended)** — Collapse followed by expand of the same
(node, direction) is a round-trip *provided the node's key is not already
hidden in that direction*: the hidden sets are restored exactly, and hence
(with no intervening data merge) the recomputed rendered state equals the
pre-collapse rendered state. -/
theorem collapse_expand_roundtrip (st : HiddenState)
    (entity : EntityReference) (direction : String)
    (hup : direction = "upstream" → entityKey entity ∉ st.upstreamHidden)
    (hdown : direction = "downstream" → entityKey entity ∉ st.downstreamHidden)
    (nodes : List EntityReference) (edges : List EdgeDetails)
    (centerNodeFqn : String) (prev : RenderState) :
    handleExpand (handleCollapse st entity direction) entity direction = st ∧
    transformToReactFlowData nodes edges centerNodeFqn
      (handleExpand (handleCollapse st entity direction) entity
        direction).upstreamHidden
      (handleExpand (handleCollapse st entity direction) entity
        direction).downstreamHidden prev =
    transformToReactFlowData nodes edges centerNodeFqn
      st.upstreamHidden st.downstreamHidden prev := by
  have h1 : handleExpand (handleCollapse st entity direction) entity
      direction = st := by
    by_cases hu : direction = "upstream"
    · obtain ⟨up, down⟩ := st
      simp only [handleCollapse, handleExpand, hu, if_true, if_pos]
      simp [setDelete_setAdd up (entityKey entity) (hup hu)]
    · by_cases hd : direction = "downstream"
      · obtain ⟨up, down⟩ := st
        simp only [handleCollapse, handleExpand, hu, hd, if_false, if_true,
          if_neg, if_pos]
        simp [setDelete_setAdd down (entityKey entity) (hdown hd)]
      · simp [handleCollapse, handleExpand, hu, hd]
  exact ⟨h1, by rw [h1]⟩

/-- **C6 witness** — a concrete round-trip on a state not hiding the
node. -/
theorem collapse_expand_roundtrip_witness :
    handleExpand
      (handleCollapse
        { upstreamHidden := ["Q"], downstreamHidden := [] } entB "upstream")
      entB "upstream" =
      ({ upstreamHidden := ["Q"], downstreamHidden := [] } : HiddenState) :=
  (collapse_expand_roundtrip
    { upstreamHidden := ["Q"], downstreamHidden := [] } entB "upstream"
    (fun _ => by decide) (fun _ => by decide)
    [entA, entB] [edgeAB] "A" demoPrev).1

/-- The hidden state in which `B` is already upstream-hidden. -/
def stAlready : HiddenState :=
  { upstreamHidden := ["B"], downstreamHidden := [] }

/-- **C6 counterexample** — when the node's key is *already* in the
upstream-hidden set, collapse is a no-op but expand removes the key, so the
round-trip does not restore the original hidden sets, and the rendered
node set genuinely differs (`{a, b}` after the round-trip versus `{b}`
before it). -/
theorem collapse_expand_roundtrip_cex :
    handleExpand (handleCollapse stAlready entB "upstream") entB "upstream"
      ≠ stAlready ∧
    (transformToReactFlowData [entA, entB] [edgeAB] "B"
      (handleExpand (handleCollapse stAlready entB "upstream") entB
        "upstream").upstreamHidden
      (handleExpand (handleCollapse stAlready entB "upstream") entB
        "upstream").downstreamHidden demoPrev).rfNodes.map
        (fun fn => fn.id) = ["a", "b"] ∧
    (transformToReactFlowData [entA, entB] [edgeAB] "B"
      stAlready.upstreamHidden stAlready.downstreamHidden
      demoPrev).rfNodes.map (fun fn => fn.id) = ["b"] := by decide

lemma upstreamControl_collapse_iff (d : LineageNodeData) :
    upstreamControl d = LineageControl.collapseControl ↔
      (d.canExpandUpstream = true ∧ d.hasUpstreamConnections = true ∧
       d.upstreamHidden = false ∧ d.isCenter = true) := by
  unfold upstreamControl
  split_ifs with h1 h2 h3 h4 <;> simp_all

lemma downstreamControl_collapse (d : LineageNodeData)
    (h1 : d.canExpandDownstream = true)
    (h2 : d.hasDownstreamConnections = true)
    (h3 : d.downstreamHidden = false) :
    downstreamControl d = LineageControl.collapseControl := by
  unfold downstreamControl
  simp [h1, h2, h3]

lemma mkLineageNodeData_canExpandDownstream (edges : List EdgeDetails)
    (centerNodeFqn : String) (up down : List String)
    (node : EntityReference)
    (h : (mkLineageNodeData edges centerNodeFqn up down
      node).hasDownstreamConnections = true) :
    (mkLineageNodeData edges centerNodeFqn up down
      node).canExpandDownstream = true := by
  unfold mkLineageNodeData at h ⊢
  simp only at h ⊢
  rw [h]
  simp

/-- **C2** — For every node built by the graph transform: a node that is
not the center and whose upstream is visible never shows the
upstream-collapse control; only a center node can show it; and any node
with visible downstream connections shows the downstream-collapse
control. -/
theorem upstream_collapse_center_only (nodes : List EntityReference)
    (edges : List EdgeDetails) (centerNodeFqn : String)
    (upstreamHidden downstreamHidden : List String) (fn : FlowNode)
    (hmem : fn ∈ transformFlowNodes nodes edges centerNodeFqn
      upstreamHidden downstreamHidden) :
    (fn.data.isCenter = false → fn.data.upstreamHidden = false →
      upstreamControl fn.data ≠ LineageControl.collapseControl) ∧
    (upstreamControl fn.data = LineageControl.collapseControl →
      fn.data.isCenter = true) ∧
    (fn.data.hasDownstreamConnections = true →
      fn.data.downstreamHidden = false →
      downstreamControl fn.data = LineageControl.collapseControl) := by
  refine ⟨?_, ?_, ?_⟩
  · intro hc _ hcol
    rw [((upstreamControl_collapse_iff fn.data).mp hcol).2.2.2] at hc
    exact Bool.noConfusion hc
  · intro hcol
    exact ((upstreamControl_collapse_iff fn.data).mp hcol).2.2.2
  · intro hdc hdh
    simp only [transformFlowNodes] at hmem
    obtain ⟨p, hp, rfl⟩ := List.mem_map.mp hmem
    exact downstreamControl_collapse _
      (mkLineageNodeData_canExpandDownstream _ _ _ _ _ hdc) hdc hdh

/-- **C2 witness** — the center node `a` of the concrete graph
`a → b` has visible downstream connections and indeed shows the
downstream-collapse control. -/
theorem upstream_collapse_center_only_witness :
    downstreamControl
      ({ id := "a", position := (0, 0),
         data := mkLineageNodeData [edgeAB] "A" [] [] entA } :
        FlowNode).data = LineageControl.collapseControl :=
  (upstream_collapse_center_only [entA, entB] [edgeAB] "A" [] []
    { id := "a", position := (0, 0),
      data := mkLineageNodeData [edgeAB] "A" [] [] entA }
    (by decide)).2.2 (by decide) (by decide)

lemma mem_of_mem_enum {α : Type} {p : Nat × α} {l : List α}
    (h : p ∈ l.enum) : p.2 ∈ l := by
  have h1 := List.mem_enum_iff_getElem?.mp h
  obtain ⟨hlt, he⟩ := List.getElem?_eq_some.mp h1
  exact he ▸ List.getElem_mem hlt

/-- The entity `b` lacking a fully-qualified name. -/
def entBNoFqn : EntityReference :=
  { id := "b", type := "table", name := "B", fullyQualifiedName := none }

/-- The `a → b` edge whose target carries no fully-qualified name. -/
def edgeABNoFqn : EdgeDetails := mkEdge "a" "b" (some "A") none

/-- **C7 counterexample** — entity `b` has no fully-qualified name; its
fallback key `"b"` *is* among the downstream target keys of the edge set,
yet the transform classifies it `isDownstream = false`, because the
upstream/downstream classification looks up the raw fully-qualified name
without the id fallback. -/
theorem transform_key_fallback_cex :
    entityKey entBNoFqn ∈
      [edgeABNoFqn].map (fun e => edgeEntityKey e.toEntity) ∧
    (transformFlowNodes [entA, entBNoFqn] [edgeABNoFqn] "A" [] []).map
      (fun fn => (fn.id, fn.data.isDownstream)) =
      [("a", false), ("b", false)] := by decide

/-- **C7 (amended)** — For every node built by the transform: the fallback
key (fully-qualified name, else id) is the key used for hidden-node
filtering, hidden-direction lookup and connection detection, while the
center/upstream/downstream classification uses the raw fully-qualified
name with no id fallback (an entity lacking a fully-qualified name is
never classified). -/
theorem transform_key_usage (nodes : List EntityReference)
    (edges : List EdgeDetails) (centerNodeFqn : String)
    (upstreamHidden downstreamHidden : List String) (fn : FlowNode)
    (hmem : fn ∈ transformFlowNodes nodes edges centerNodeFqn
      upstreamHidden downstreamHidden) :
    ∃ node, node ∈ nodes ∧
      entityKey node ∉ getHiddenNodes edges upstreamHidden downstreamHidden ∧
      fn.id = node.id ∧
      fn.data.entity = node ∧
      fn.data.isCenter =
        decide (node.fullyQualifiedName = some centerNodeFqn) ∧
      fn.data.isUpstream =
        (!decide (node.fullyQualifiedName = some centerNodeFqn) &&
          rawFqnMem node (edges.map (fun e => edgeEntityKey e.fromEntity))) ∧
      fn.data.isDownstream =
        (!decide (node.fullyQualifiedName = some centerNodeFqn) &&
          rawFqnMem node (edges.map (fun e => edgeEntityKey e.toEntity))) ∧
      fn.data.upstreamHidden = decide (entityKey node ∈ upstreamHidden) ∧
      fn.data.downstreamHidden = decide (entityKey node ∈ downstreamHidden) ∧
      fn.data.hasUpstreamConnections =
        edges.any (fun e => decide (edgeEntityKey e.toEntity = entityKey node)) ∧
      fn.data.hasDownstreamConnections =
        edges.any (fun e =>
          decide (edgeEntityKey e.fromEntity = entityKey node)) := by
  simp only [transformFlowNodes] at hmem
  obtain ⟨p, hp, rfl⟩ := List.mem_map.mp hmem
  have h2 := mem_of_mem_enum hp
  have h3 := List.mem_filter.mp h2
  exact ⟨p.2, h3.1, by simpa using h3.2, rfl, rfl, rfl, rfl, rfl, rfl, rfl,
    rfl, rfl⟩

/-- The flow node the transform builds for `entBNoFqn` in the concrete
`a → b` graph. -/
def fnBNoFqn : FlowNode :=
  { id := "b", position := (250, 150),
    data := mkLineageNodeData [edgeABNoFqn] "A" [] [] entBNoFqn }

/-- **C7 witness** — the amended characterization instantiated at the
concrete graph `a → b` and the rendered node for `b`. -/
theorem transform_key_usage_witness :
    ∃ node, node ∈ [entA, entBNoFqn] ∧
      entityKey node ∉ getHiddenNodes [edgeABNoFqn] [] [] ∧
      fnBNoFqn.id = node.id ∧
      fnBNoFqn.data.entity = node ∧
      fnBNoFqn.data.isCenter =
        decide (node.fullyQualifiedName = some "A") ∧
      fnBNoFqn.data.isUpstream =
        (!decide (node.fullyQualifiedName = some "A") &&
          rawFqnMem node
            ([edgeABNoFqn].map (fun e => edgeEntityKey e.fromEntity))) ∧
      fnBNoFqn.data.isDownstream =
        (!decide (node.fullyQualifiedName = some "A") &&
          rawFqnMem node
            ([edgeABNoFqn].map (fun e => edgeEntityKey e.toEntity))) ∧
      fnBNoFqn.data.upstreamHidden =
        decide (entityKey node ∈ ([] : List String)) ∧
      fnBNoFqn.data.downstreamHidden =
        decide (entityKey node ∈ ([] : List String)) ∧
      fnBNoFqn.data.hasUpstreamConnections =
        [edgeABNoFqn].any
          (fun e => decide (edgeEntityKey e.toEntity = entityKey node)) ∧
      fnBNoFqn.data.hasDownstreamConnections =
        [edgeABNoFqn].any
          (fun e => decide (edgeEntityKey e.fromEntity = entityKey node)) :=
  transform_key_usage [entA, entBNoFqn] [edgeABNoFqn] "A" [] [] fnBNoFqn
    (by decide)

/-- `NODE_WIDTH` from `LineageUtils.ts`. -/
def NODE_WIDTH : Nat := 200

/-- `NODE_HEIGHT` from `LineageUtils.ts`. -/
def NODE_HEIGHT : Nat := 60

/-- `{ ...node, position }`: replace a node's position. -/
def setPos (n : FlowNode) (p : Nat × Nat) : FlowNode :=
  { n with position := p }

/-- The `findIndex`/assign idiom of `layoutNodesFallback`: replace the
first element whose `id` matches `n.id` by `n` with the new position; if no
index matches (`findIndex === -1`), leave the array unchanged. -/
def updateFirstById : List FlowNode → FlowNode → Nat × Nat → List FlowNode
  | [], _, _ => []
  | x :: xs, n, p =>
    if x.id = n.id then setPos n p :: xs
    else x :: updateFirstById xs n p

/-- `layoutNodesFallback` from `LineageUtils.ts`: center node at the fixed
reference point `(400, 200)`; nodes filtered as upstream stacked at
`x = 50`, nodes filtered as downstream stacked at `x = 750`, both columns
starting at `y = 50` with spacing `NODE_HEIGHT + 100` in input order.  The
three passes run sequentially over the same array, later passes
overwriting earlier ones. -/
def layoutNodesFallback (nodes : List FlowNode) : List FlowNode :=
  let centerNode := nodes.find? (fun n => n.data.isCenter)
  let upstreamNodes := nodes.filter (fun n => n.data.isUpstream)
  let downstreamNodes := nodes.filter (fun n => n.data.isDownstream)
  let spacing := NODE_HEIGHT + 100
  let l1 :=
    match centerNode with
    | some c => updateFirstById nodes c (400, 200)
    | none => nodes
  let l2 := upstreamNodes.enum.foldl
    (fun acc q => updateFirstById acc q.2 (50, 50 + q.1 * spacing)) l1
  downstreamNodes.enum.foldl
    (fun acc q => updateFirstById acc q.2 (750, 50 + q.1 * spacing)) l2

/-- `layoutNodes` from `LineageUtils.ts` with the external ELK run
abstracted by its outcome: on success the layouted nodes are returned, on
any error the deterministic fallback runs. -/
def layoutNodes (primaryResult : Except String (List FlowNode))
    (nodes : List FlowNode) : List FlowNode :=
  match primaryResult with
  | .ok layoutedNodes => layoutedNodes
  | .error _ => layoutNodesFallback nodes

/-- Pointwise effect of `updateFirstById` on one element (meaningful when
ids are duplicate-free). -/
def applyUpd (x n : FlowNode) (p : Nat × Nat) : FlowNode :=
  if x.id = n.id then setPos n p else x

lemma applyUpd_id (x n : FlowNode) (p : Nat × Nat) :
    (applyUpd x n p).id = x.id := by
  unfold applyUpd setPos
  split
  · rename_i h
    exact h.symm
  · rfl

lemma updateFirstById_eq_map {l : List FlowNode}
    (hl : (l.map (fun n => n.id)).Nodup) (n : FlowNode) (p : Nat × Nat) :
    updateFirstById l n p = l.map (fun x => applyUpd x n p) := by
  induction l with
  | nil => rfl
  | cons x xs ih =>
    simp only [List.map_cons, List.nodup_cons] at hl
    unfold updateFirstById
    by_cases h : x.id = n.id
    · rw [if_pos h]
      simp only [List.map_cons]
      congr 1
      · unfold applyUpd
        rw [if_pos h]
      · have hxs : ∀ y ∈ xs, applyUpd y n p = y := by
          intro y hy
          unfold applyUpd
          rw [if_neg]
          intro hyn
          exact hl.1 (List.mem_map.mpr ⟨y, hy, hyn.trans h.symm⟩)
        calc xs = xs.map (fun y => y) := by rw [List.map_id']
          _ = xs.map (fun y => applyUpd y n p) :=
            List.map_congr_left (fun y hy => (hxs y hy).symm)
    · rw [if_neg h]
      simp only [List.map_cons]
      congr 1
      · unfold applyUpd
        rw [if_neg h]
      · exact ih hl.2

lemma foldl_updateFirstById_eq_map (ups : List (Nat × FlowNode))
    (posF : Nat → Nat × Nat) (l : List FlowNode)
    (hl : (l.map (fun n => n.id)).Nodup) :
    ups.foldl (fun acc q => updateFirstById acc q.2 (posF q.1)) l =
    l.map (fun x => ups.foldl (fun y q => applyUpd y q.2 (posF q.1)) x) := by
  induction ups generalizing l with
  | nil =>
    simp only [List.foldl_nil]
    rw [List.map_id']
  | cons u us ih =>
    simp only [List.foldl_cons]
    rw [updateFirstById_eq_map hl]
    have hids : (l.map (fun x => applyUpd x u.2 (posF u.1))).map
        (fun n => n.id) = l.map (fun n => n.id) := by
      rw [List.map_map]
      exact List.map_congr_left (fun x _ => applyUpd_id x u.2 (posF u.1))
    rw [ih _ (hids ▸ hl), List.map_map]
    rfl

lemma foldl_applyUpd_id (ups : List (Nat × FlowNode))
    (posF : Nat → Nat × Nat) (y : FlowNode) :
    (ups.foldl (fun z q => applyUpd z q.2 (posF q.1)) y).id = y.id := by
  induction ups generalizing y with
  | nil => rfl
  | cons u us ih =>
    simp only [List.foldl_cons]
    rw [ih (applyUpd y u.2 (posF u.1)), applyUpd_id]

lemma foldl_applyUpd_no_match (ups : List (Nat × FlowNode))
    (posF : Nat → Nat × Nat) (y : FlowNode)
    (h : ∀ q ∈ ups, q.2.id ≠ y.id) :
    ups.foldl (fun z q => applyUpd z q.2 (posF q.1)) y = y := by
  induction ups with
  | nil => rfl
  | cons u us ih =>
    simp only [List.foldl_cons]
    have h1 : applyUpd y u.2 (posF u.1) = y := by
      unfold applyUpd
      rw [if_neg]
      intro he
      exact h u (List.mem_cons_self u us) he.symm
    rw [h1]
    exact ih (fun q hq => h q (List.mem_cons_of_mem u hq))

lemma foldl_applyUpd_enumFrom (us : List FlowNode)
    (posF : Nat → Nat × Nat) (x : FlowNode) :
    ∀ (k : Nat) (y : FlowNode),
      (us.map (fun n => n.id)).Nodup → x ∈ us → y.id = x.id →
      (us.enumFrom k).foldl (fun z q => applyUpd z q.2 (posF q.1)) y =
        setPos x (posF (k + us.indexOf x)) := by
  induction us with
  | nil =>
    intro k y _ hx _
    cases hx
  | cons u us ih =>
    intro k y hnd hx hy
    rw [List.enumFrom_cons]
    simp only [List.foldl_cons]
    simp only [List.map_cons, List.nodup_cons] at hnd
    by_cases h : u.id = x.id
    · have hux : u = x := by
        rcases List.mem_cons.mp hx with rfl | hxus
        · rfl
        · exact absurd (List.mem_map.mpr ⟨x, hxus, h.symm⟩) hnd.1
      subst hux
      have h1 : applyUpd y u (posF k) = setPos u (posF k) := by
        unfold applyUpd
        rw [if_pos (hy.trans h.symm)]
      rw [h1]
      have h2 : ∀ q ∈ us.enumFrom (k + 1),
          q.2.id ≠ (setPos u (posF k)).id := by
        intro q hq hqe
        have hq2 : q.2 ∈ us := by
          have hmap := List.enumFrom_map_snd (k + 1) us
          exact hmap ▸ List.mem_map_of_mem Prod.snd hq
        exact hnd.1 (List.mem_map.mpr ⟨q.2, hq2, hqe⟩)
      rw [foldl_applyUpd_no_match _ _ _ h2, List.indexOf_cons_self]
      norm_num
    · have h1 : applyUpd y u (posF k) = y := by
        unfold applyUpd
        rw [if_neg]
        intro he
        exact h (he.symm.trans hy)
      rw [h1]
      have hxus : x ∈ us := by
        rcases List.mem_cons.mp hx with rfl | h2
        · exact absurd rfl h
        · exact h2
      rw [ih (k + 1) y hnd.2 hxus hy]
      have hne : u ≠ x := fun he => h (he ▸ rfl)
      rw [List.indexOf_cons_ne us hne]
      have harith : k + 1 + us.indexOf x = k + (us.indexOf x + 1) := by omega
      rw [harith]

lemma filter_ids_nodup (nodes : List FlowNode)
    (hids : (nodes.map (fun n => n.id)).Nodup) (p : FlowNode → Bool) :
    ((nodes.filter p).map (fun n => n.id)).Nodup :=
  List.Nodup.sublist
    (List.Sublist.map (fun n => n.id) (List.filter_sublist nodes)) hids

lemma enum_filter_no_match (nodes : List FlowNode)
    (hinj : ∀ a ∈ nodes, ∀ b ∈ nodes, a.id = b.id → a = b)
    (p : FlowNode → Bool) (x : FlowNode) (hx : x ∈ nodes)
    (hpx : p x = false) :
    ∀ q ∈ (nodes.filter p).enum, q.2.id ≠ x.id := by
  intro q hq he
  have hq2 : q.2 ∈ nodes.filter p := mem_of_mem_enum hq
  have hf := List.mem_filter.mp hq2
  have heq : q.2 = x := hinj q.2 hf.1 x hx he
  rw [heq] at hf
  rw [hf.2] at hpx
  exact Bool.noConfusion hpx

lemma foldl_applyUpd_enum (us : List FlowNode) (posF : Nat → Nat × Nat)
    (x y : FlowNode) (hnd : (us.map (fun n => n.id)).Nodup) (hx : x ∈ us)
    (hy : y.id = x.id) :
    us.enum.foldl (fun z q => applyUpd z q.2 (posF q.1)) y =
      setPos x (posF (us.indexOf x)) := by
  have h := foldl_applyUpd_enumFrom us posF x 0 y hnd hx hy
  rw [show us.enum = us.enumFrom 0 from rfl, h, Nat.zero_add]

lemma two_folds_pointwise (nodes : List FlowNode)
    (hinj : ∀ a ∈ nodes, ∀ b ∈ nodes, a.id = b.id → a = b)
    (x y : FlowNode) (hx : x ∈ nodes) (hy : y.id = x.id)
    (hnd_us : ((nodes.filter (fun n => n.data.isUpstream)).map
      (fun n => n.id)).Nodup)
    (hnd_ds : ((nodes.filter (fun n => n.data.isDownstream)).map
      (fun n => n.id)).Nodup) :
    (nodes.filter (fun n => n.data.isDownstream)).enum.foldl
      (fun z q => applyUpd z q.2 (750, 50 + q.1 * (NODE_HEIGHT + 100)))
      ((nodes.filter (fun n => n.data.isUpstream)).enum.foldl
        (fun z q => applyUpd z q.2 (50, 50 + q.1 * (NODE_HEIGHT + 100)))
        y) =
    (if x.data.isDownstream = true then
      setPos x (750, 50 +
        (nodes.filter (fun n => n.data.isDownstream)).indexOf x *
          (NODE_HEIGHT + 100))
    else if x.data.isUpstream = true then
      setPos x (50, 50 +
        (nodes.filter (fun n => n.data.isUpstream)).indexOf x *
          (NODE_HEIGHT + 100))
    else y) := by
  by_cases hd : x.data.isDownstream = true
  · rw [if_pos hd]
    have hyid : ((nodes.filter (fun n => n.data.isUpstream)).enum.foldl
        (fun z q => applyUpd z q.2 (50, 50 + q.1 * (NODE_HEIGHT + 100)))
        y).id = x.id :=
      (foldl_applyUpd_id _ (fun i => ((50 : Nat), 50 + i * (NODE_HEIGHT + 100))) y).trans hy
    exact foldl_applyUpd_enum _ (fun i => ((750 : Nat), 50 + i * (NODE_HEIGHT + 100))) x _ hnd_ds
      (List.mem_filter.mpr ⟨hx, hd⟩) hyid
  · rw [if_neg hd]
    have hdf : x.data.isDownstream = false := by simpa using hd
    have hnm_ds : ∀ q ∈ (nodes.filter (fun n => n.data.isDownstream)).enum,
        q.2.id ≠ x.id :=
      enum_filter_no_match nodes hinj (fun n => n.data.isDownstream) x hx hdf
    by_cases hu : x.data.isUpstream = true
    · rw [if_pos hu]
      have h1 : (nodes.filter (fun n => n.data.isUpstream)).enum.foldl
          (fun z q => applyUpd z q.2 (50, 50 + q.1 * (NODE_HEIGHT + 100)))
          y = setPos x (50, 50 +
            (nodes.filter (fun n => n.data.isUpstream)).indexOf x *
              (NODE_HEIGHT + 100)) :=
        foldl_applyUpd_enum _ (fun i => ((50 : Nat), 50 + i * (NODE_HEIGHT + 100))) x y hnd_us
          (List.mem_filter.mpr ⟨hx, hu⟩) hy
      rw [h1]
      exact foldl_applyUpd_no_match _ (fun i => ((750 : Nat), 50 + i * (NODE_HEIGHT + 100))) _ (fun q hq => hnm_ds q hq)
    · rw [if_neg hu]
      have huf : x.data.isUpstream = false := by simpa using hu
      have h1 : (nodes.filter (fun n => n.data.isUpstream)).enum.foldl
          (fun z q => applyUpd z q.2 (50, 50 + q.1 * (NODE_HEIGHT + 100)))
          y = y :=
        foldl_applyUpd_no_match _ (fun i => ((50 : Nat), 50 + i * (NODE_HEIGHT + 100))) y (fun q hq he =>
          enum_filter_no_match nodes hinj (fun n => n.data.isUpstream)
            x hx huf q hq (he.trans hy))
      rw [h1]
      exact foldl_applyUpd_no_match _ (fun i => ((750 : Nat), 50 + i * (NODE_HEIGHT + 100))) y (fun q hq he =>
        hnm_ds q hq (he.trans hy))

lemma layoutNodesFallback_eq_map (nodes : List FlowNode)
    (hids : (nodes.map (fun n => n.id)).Nodup) :
    layoutNodesFallback nodes = nodes.map (fun x =>
      if x.data.isDownstream = true then
        setPos x (750, 50 +
          (nodes.filter (fun n => n.data.isDownstream)).indexOf x *
            (NODE_HEIGHT + 100))
      else if x.data.isUpstream = true then
        setPos x (50, 50 +
          (nodes.filter (fun n => n.data.isUpstream)).indexOf x *
            (NODE_HEIGHT + 100))
      else if nodes.find? (fun n => n.data.isCenter) = some x then
        setPos x (400, 200)
      else x) := by
  have hinj : ∀ a ∈ nodes, ∀ b ∈ nodes, a.id = b.id → a = b :=
    List.inj_on_of_nodup_map hids
  have hnd_us := filter_ids_nodup nodes hids (fun n => n.data.isUpstream)
  have hnd_ds := filter_ids_nodup nodes hids (fun n => n.data.isDownstream)
  rcases hc : nodes.find? (fun n => n.data.isCenter) with _ | c
  · simp only [layoutNodesFallback, hc]
    have hst : ((nodes.filter (fun n => n.data.isUpstream)).enum.foldl
        (fun acc q => updateFirstById acc q.2
          (50, 50 + q.1 * (NODE_HEIGHT + 100))) nodes) =
        nodes.map (fun x =>
          (nodes.filter (fun n => n.data.isUpstream)).enum.foldl
            (fun z q => applyUpd z q.2 (50, 50 + q.1 * (NODE_HEIGHT + 100)))
            x) :=
      foldl_updateFirstById_eq_map _ (fun i => ((50 : Nat), 50 + i * (NODE_HEIGHT + 100))) nodes hids
    rw [hst]
    have hids2 : ((nodes.map (fun x =>
        (nodes.filter (fun n => n.data.isUpstream)).enum.foldl
          (fun z q => applyUpd z q.2 (50, 50 + q.1 * (NODE_HEIGHT + 100)))
          x)).map (fun n => n.id)) = nodes.map (fun n => n.id) := by
      rw [List.map_map]
      refine List.map_congr_left (fun x _ => ?_)
      exact foldl_applyUpd_id _ (fun i => ((50 : Nat), 50 + i * (NODE_HEIGHT + 100))) x
    have hst2 : ((nodes.filter (fun n => n.data.isDownstream)).enum.foldl
        (fun acc q => updateFirstById acc q.2
          (750, 50 + q.1 * (NODE_HEIGHT + 100)))
        (nodes.map (fun x =>
          (nodes.filter (fun n => n.data.isUpstream)).enum.foldl
            (fun z q => applyUpd z q.2 (50, 50 + q.1 * (NODE_HEIGHT + 100)))
            x))) =
        (nodes.map (fun x =>
          (nodes.filter (fun n => n.data.isUpstream)).enum.foldl
            (fun z q => applyUpd z q.2 (50, 50 + q.1 * (NODE_HEIGHT + 100)))
            x)).map (fun y =>
          (nodes.filter (fun n => n.data.isDownstream)).enum.foldl
            (fun z q => applyUpd z q.2 (750, 50 + q.1 * (NODE_HEIGHT + 100)))
            y) :=
      foldl_updateFirstById_eq_map _ (fun i => ((750 : Nat), 50 + i * (NODE_HEIGHT + 100))) _ (hids2 ▸ hids)
    rw [hst2, List.map_map]
    refine List.map_congr_left (fun x hx => ?_)
    have h2f := two_folds_pointwise nodes hinj x x hx rfl hnd_us hnd_ds
    refine h2f.trans ?_
    by_cases hd : x.data.isDownstream = true
    · rw [if_pos hd, if_pos hd]
    · rw [if_neg hd, if_neg hd]
      by_cases hu : x.data.isUpstream = true
      · rw [if_pos hu, if_pos hu]
      · rw [if_neg hu, if_neg hu, if_neg]
        intro hno
        exact Option.noConfusion hno
  · simp only [layoutNodesFallback, hc]
    have hc_mem : c ∈ nodes := List.mem_of_find?_eq_some hc
    rw [updateFirstById_eq_map hids c (400, 200)]
    have hids1 : ((nodes.map (fun x => applyUpd x c (400, 200))).map
        (fun n => n.id)) = nodes.map (fun n => n.id) := by
      rw [List.map_map]
      exact List.map_congr_left (fun x _ => applyUpd_id x c (400, 200))
    have hst : ((nodes.filter (fun n => n.data.isUpstream)).enum.foldl
        (fun acc q => updateFirstById acc q.2
          (50, 50 + q.1 * (NODE_HEIGHT + 100)))
        (nodes.map (fun x => applyUpd x c (400, 200)))) =
        (nodes.map (fun x => applyUpd x c (400, 200))).map (fun y =>
          (nodes.filter (fun n => n.data.isUpstream)).enum.foldl
            (fun z q => applyUpd z q.2 (50, 50 + q.1 * (NODE_HEIGHT + 100)))
            y) :=
      foldl_updateFirstById_eq_map _ (fun i => ((50 : Nat), 50 + i * (NODE_HEIGHT + 100))) _ (hids1 ▸ hids)
    rw [hst, List.map_map]
    have hids2 : ((nodes.map ((fun y =>
        (nodes.filter (fun n => n.data.isUpstream)).enum.foldl
          (fun z q => applyUpd z q.2 (50, 50 + q.1 * (NODE_HEIGHT + 100)))
          y) ∘ (fun x => applyUpd x c (400, 200)))).map
        (fun n => n.id)) = nodes.map (fun n => n.id) := by
      rw [List.map_map]
      refine List.map_congr_left (fun x _ => ?_)
      show ((nodes.filter (fun n => n.data.isUpstream)).enum.foldl
        (fun z q => applyUpd z q.2 (50, 50 + q.1 * (NODE_HEIGHT + 100)))
        (applyUpd x c (400, 200))).id = x.id
      exact (foldl_applyUpd_id _ (fun i => ((50 : Nat), 50 + i * (NODE_HEIGHT + 100)))
        (applyUpd x c (400, 200))).trans (applyUpd_id x c (400, 200))
    have hst2 : ((nodes.filter (fun n => n.data.isDownstream)).enum.foldl
        (fun acc q => updateFirstById acc q.2
          (750, 50 + q.1 * (NODE_HEIGHT + 100)))
        (nodes.map ((fun y =>
          (nodes.filter (fun n => n.data.isUpstream)).enum.foldl
            (fun z q => applyUpd z q.2 (50, 50 + q.1 * (NODE_HEIGHT + 100)))
            y) ∘ (fun x => applyUpd x c (400, 200))))) =
        (nodes.map ((fun y =>
          (nodes.filter (fun n => n.data.isUpstream)).enum.foldl
            (fun z q => applyUpd z q.2 (50, 50 + q.1 * (NODE_HEIGHT + 100)))
            y) ∘ (fun x => applyUpd x c (400, 200)))).map (fun y =>
          (nodes.filter (fun n => n.data.isDownstream)).enum.foldl
            (fun z q => applyUpd z q.2 (750, 50 + q.1 * (NODE_HEIGHT + 100)))
            y) :=
      foldl_updateFirstById_eq_map _ (fun i => ((750 : Nat), 50 + i * (NODE_HEIGHT + 100))) _ (hids2 ▸ hids)
    rw [hst2, List.map_map]
    refine List.map_congr_left (fun x hx => ?_)
    have h2f := two_folds_pointwise nodes hinj x (applyUpd x c (400, 200))
      hx (applyUpd_id x c (400, 200)) hnd_us hnd_ds
    refine h2f.trans ?_
    by_cases hd : x.data.isDownstream = true
    · rw [if_pos hd, if_pos hd]
    · rw [if_neg hd, if_neg hd]
      by_cases hu : x.data.isUpstream = true
      · rw [if_pos hu, if_pos hu]
      · rw [if_neg hu, if_neg hu]
        by_cases hcx : c = x
        · subst hcx
          rw [if_pos rfl]
          unfold applyUpd
          rw [if_pos rfl]
        · rw [if_neg (fun hno => hcx (Option.some.inj hno))]
          unfold applyUpd
          rw [if_neg (fun he => hcx (hinj x hx c hc_mem he).symm)]

/-- The position `layoutNodesFallback` assigns to one node (derived
pointwise description, proved equal to the source fold in
`layoutNodesFallback_eq_map`). -/
def fallbackPos (nodes : List FlowNode) (x : FlowNode) : FlowNode :=
  if x.data.isDownstream = true then
    setPos x (750, 50 +
      (nodes.filter (fun n => n.data.isDownstream)).indexOf x *
        (NODE_HEIGHT + 100))
  else if x.data.isUpstream = true then
    setPos x (50, 50 +
      (nodes.filter (fun n => n.data.isUpstream)).indexOf x *
        (NODE_HEIGHT + 100))
  else if nodes.find? (fun n => n.data.isCenter) = some x then
    setPos x (400, 200)
  else x

lemma layoutNodesFallback_eq_map2 (nodes : List FlowNode)
    (hids : (nodes.map (fun n => n.id)).Nodup) :
    layoutNodesFallback nodes = nodes.map (fallbackPos nodes) :=
  (layoutNodesFallback_eq_map nodes hids).trans
    (List.map_congr_left (fun _ _ => rfl))

lemma fallbackPos_data (nodes : List FlowNode) (x : FlowNode) :
    (fallbackPos nodes x).data = x.data := by
  unfold fallbackPos setPos
  split_ifs <;> rfl

lemma fallbackPos_id (nodes : List FlowNode) (x : FlowNode) :
    (fallbackPos nodes x).id = x.id := by
  unfold fallbackPos setPos
  split_ifs <;> rfl

lemma find?_center_eq (nodes : List FlowNode) (c : FlowNode)
    (hc : c ∈ nodes) (hcc : c.data.isCenter = true)
    (huniq : ∀ a ∈ nodes, ∀ b ∈ nodes, a.data.isCenter = true →
      b.data.isCenter = true → a = b) :
    nodes.find? (fun n => n.data.isCenter) = some c := by
  rcases hf : nodes.find? (fun n => n.data.isCenter) with _ | d
  · exact absurd hcc (List.find?_eq_none.mp hf c hc)
  · have hd1 := List.mem_of_find?_eq_some hf
    have hd2 := List.find?_some hf
    rw [hf, huniq d hd1 c hc hd2 hcc]

lemma fallbackPos_cases (nodes : List FlowNode) (x : FlowNode)
    (hx : x ∈ nodes)
    (hcls : (x.data.isCenter || x.data.isUpstream ||
      x.data.isDownstream) = true)
    (huniq : ∀ a ∈ nodes, ∀ b ∈ nodes, a.data.isCenter = true →
      b.data.isCenter = true → a = b) :
    (x.data.isDownstream = true ∧
      (fallbackPos nodes x).position = (750, 50 +
        (nodes.filter (fun n => n.data.isDownstream)).indexOf x *
          (NODE_HEIGHT + 100))) ∨
    (x.data.isDownstream = false ∧ x.data.isUpstream = true ∧
      (fallbackPos nodes x).position = (50, 50 +
        (nodes.filter (fun n => n.data.isUpstream)).indexOf x *
          (NODE_HEIGHT + 100))) ∨
    (x.data.isDownstream = false ∧ x.data.isUpstream = false ∧
      x.data.isCenter = true ∧
      (fallbackPos nodes x).position = (400, 200)) := by
  by_cases hd : x.data.isDownstream = true
  · left
    refine ⟨hd, ?_⟩
    unfold fallbackPos
    rw [if_pos hd]
    rfl
  · have hdf : x.data.isDownstream = false := by simpa using hd
    by_cases hu : x.data.isUpstream = true
    · right
      left
      refine ⟨hdf, hu, ?_⟩
      unfold fallbackPos
      rw [if_neg hd, if_pos hu]
      rfl
    · have huf : x.data.isUpstream = false := by simpa using hu
      have hcc : x.data.isCenter = true := by
        simp only [Bool.or_eq_true] at hcls
        rcases hcls with (h | h) | h
        · exact h
        · exact absurd h hu
        · exact absurd h hd
      right
      right
      refine ⟨hdf, huf, hcc, ?_⟩
      unfold fallbackPos
      rw [if_neg hd, if_neg hu,
        if_pos (find?_center_eq nodes x hx hcc huniq)]
      rfl

/-- Axis-aligned `NODE_WIDTH × NODE_HEIGHT` boxes at the two positions do
not intersect. -/
def boxesDisjoint (p q : Nat × Nat) : Prop :=
  p.1 + NODE_WIDTH ≤ q.1 ∨ q.1 + NODE_WIDTH ≤ p.1 ∨
  p.2 + NODE_HEIGHT ≤ q.2 ∨ q.2 + NODE_HEIGHT ≤ p.2

/-- **C8 (amended)** — When the primary layout errors, the fallback places
the (unique, directionally unclassified) center node at `(400, 200)`,
every downstream-classified node (including any node classified both ways)
in the right-hand vertical column at `x = 750`, every exclusively
upstream-classified node in the left-hand column at `x = 50`, each column
spaced by `NODE_HEIGHT + 100` in input order — so every classified node
receives a position, and no two classified nodes overlap. -/
theorem layoutNodes_fallback_spec (errMsg : String) (nodes : List FlowNode)
    (hids : (nodes.map (fun n => n.id)).Nodup)
    (hcu : ∀ c ∈ nodes, c.data.isCenter = true →
      c.data.isUpstream = false ∧ c.data.isDownstream = false)
    (huniq : ∀ a ∈ nodes, ∀ b ∈ nodes, a.data.isCenter = true →
      b.data.isCenter = true → a = b) :
    layoutNodes (Except.error errMsg) nodes = layoutNodesFallback nodes ∧
    (∀ c ∈ nodes, c.data.isCenter = true →
      setPos c (400, 200) ∈ layoutNodesFallback nodes) ∧
    (∀ x ∈ nodes, x.data.isDownstream = true →
      setPos x (750, 50 +
        (nodes.filter (fun n => n.data.isDownstream)).indexOf x *
          (NODE_HEIGHT + 100)) ∈ layoutNodesFallback nodes) ∧
    (∀ x ∈ nodes, x.data.isUpstream = true → x.data.isDownstream = false →
      setPos x (50, 50 +
        (nodes.filter (fun n => n.data.isUpstream)).indexOf x *
          (NODE_HEIGHT + 100)) ∈ layoutNodesFallback nodes) ∧
    (∀ x ∈ layoutNodesFallback nodes, ∀ y ∈ layoutNodesFallback nodes,
      x.id ≠ y.id →
      (x.data.isCenter || x.data.isUpstream || x.data.isDownstream) = true →
      (y.data.isCenter || y.data.isUpstream || y.data.isDownstream) = true →
      boxesDisjoint x.position y.position) := by
  have hmap := layoutNodesFallback_eq_map2 nodes hids
  refine ⟨rfl, ?_, ?_, ?_, ?_⟩
  · intro c hcm hcc
    rw [hmap]
    refine List.mem_map.mpr ⟨c, hcm, ?_⟩
    obtain ⟨hu0, hd0⟩ := hcu c hcm hcc
    unfold fallbackPos
    rw [if_neg (by simp [hd0]), if_neg (by simp [hu0]),
      if_pos (find?_center_eq nodes c hcm hcc huniq)]
  · intro x hxm hd
    rw [hmap]
    refine List.mem_map.mpr ⟨x, hxm, ?_⟩
    unfold fallbackPos
    rw [if_pos hd]
  · intro x hxm hu hd
    rw [hmap]
    refine List.mem_map.mpr ⟨x, hxm, ?_⟩
    unfold fallbackPos
    rw [if_neg (by simp [hd]), if_pos hu]
  · intro x hxr y hyr hne hxc hyc
    rw [hmap] at hxr hyr
    obtain ⟨a, ham, rfl⟩ := List.mem_map.mp hxr
    obtain ⟨b, hbm, rfl⟩ := List.mem_map.mp hyr
    rw [fallbackPos_data] at hxc hyc
    rw [fallbackPos_id, fallbackPos_id] at hne
    have hab : a ≠ b := fun h => hne (h ▸ rfl)
    have hca := fallbackPos_cases nodes a ham hxc huniq
    have hcb := fallbackPos_cases nodes b hbm hyc huniq
    rcases hca with ⟨hda, hpa⟩ | ⟨hda, hua, hpa⟩ | ⟨hda, hua, hcda, hpa⟩
    · rcases hcb with ⟨hdb, hpb⟩ | ⟨hdb, hub, hpb⟩ | ⟨hdb, hub, hcdb, hpb⟩
      · have hidx : (nodes.filter (fun n => n.data.isDownstream)).indexOf a ≠
            (nodes.filter (fun n => n.data.isDownstream)).indexOf b :=
          fun h => hab ((List.indexOf_inj
            (List.mem_filter.mpr ⟨ham, hda⟩)
            (List.mem_filter.mpr ⟨hbm, hdb⟩)).mp h)
        rw [hpa, hpb]
        unfold boxesDisjoint NODE_WIDTH NODE_HEIGHT
        dsimp only
        omega
      · rw [hpa, hpb]
        unfold boxesDisjoint NODE_WIDTH NODE_HEIGHT
        dsimp only
        omega
      · rw [hpa, hpb]
        unfold boxesDisjoint NODE_WIDTH NODE_HEIGHT
        dsimp only
        omega
    · rcases hcb with ⟨hdb, hpb⟩ | ⟨hdb, hub, hpb⟩ | ⟨hdb, hub, hcdb, hpb⟩
      · rw [hpa, hpb]
        unfold boxesDisjoint NODE_WIDTH NODE_HEIGHT
        dsimp only
        omega
      · have hidx : (nodes.filter (fun n => n.data.isUpstream)).indexOf a ≠
            (nodes.filter (fun n => n.data.isUpstream)).indexOf b :=
          fun h => hab ((List.indexOf_inj
            (List.mem_filter.mpr ⟨ham, hua⟩)
            (List.mem_filter.mpr ⟨hbm, hub⟩)).mp h)
        rw [hpa, hpb]
        unfold boxesDisjoint NODE_WIDTH NODE_HEIGHT
        dsimp only
        omega
      · rw [hpa, hpb]
        unfold boxesDisjoint NODE_WIDTH NODE_HEIGHT
        dsimp only
        omega
    · rcases hcb with ⟨hdb, hpb⟩ | ⟨hdb, hub, hpb⟩ | ⟨hdb, hub, hcdb, hpb⟩
      · rw [hpa, hpb]
        unfold boxesDisjoint NODE_WIDTH NODE_HEIGHT
        dsimp only
        omega
      · rw [hpa, hpb]
        unfold boxesDisjoint NODE_WIDTH NODE_HEIGHT
        dsimp only
        omega
      · exact absurd (huniq a ham b hbm hcda hcdb) hab

/-- The data of a pure center node. -/
def centerNodeData : LineageNodeData :=
  { entity := entC, isCenter := true, isUpstream := false,
    isDownstream := false, hasUpstreamConnections := false,
    hasDownstreamConnections := false, upstreamHidden := false,
    downstreamHidden := false, canExpandUpstream := true,
    canExpandDownstream := true }

/-- The data of a node classified both upstream and downstream, as the
transform produces for any intermediate node of a chain. -/
def dualNodeData : LineageNodeData :=
  { entity := entB, isCenter := false, isUpstream := true,
    isDownstream := true, hasUpstreamConnections := true,
    hasDownstreamConnections := true, upstreamHidden := false,
    downstreamHidden := false, canExpandUpstream := true,
    canExpandDownstream := true }

/-- A center node plus a dually-classified node. -/
def layoutCexNodes : List FlowNode :=
  [{ id := "c0", position := (0, 0), data := centerNodeData },
   { id := "b0", position := (0, 0), data := dualNodeData }]

/-- **C8 counterexample** — node `b0` is upstream-classified, yet the
fallback places it at `x = 750`, in the right-hand column, to the *right*
of the center at `x = 400` — the downstream pass overwrites the upstream
column position, so upstream-classified nodes are not all stacked in a
column to the center's left as claimed. -/
theorem layout_fallback_cex :
    (layoutNodesFallback layoutCexNodes).map (fun n => (n.id, n.position)) =
      [("c0", ((400 : Nat), (200 : Nat))),
       ("b0", ((750 : Nat), (50 : Nat)))] ∧
    dualNodeData.isUpstream = true ∧ (400 : Nat) < 750 := by decide

/-- **C8 witness** — the amended theorem instantiated at the concrete
two-node input. -/
theorem layoutNodes_fallback_spec_witness :
    layoutNodes (Except.error "ELK layout failed") layoutCexNodes =
      layoutNodesFallback layoutCexNodes :=
  (layoutNodes_fallback_spec "ELK layout failed" layoutCexNodes
    (by decide) (by decide) (by decide)).1
